import Mathlib

/-!
Verification development for the smolvlm-anti-drone repository.

The Python source is shallowly embedded: pure functions become Lean
functions over `ℚ` (Python floats are modelled as exact rationals, so the
algebraic identities below are about the algorithms, not IEEE rounding),
Python lists become `List`, Python dicts with `defaultdict` semantics are
modelled extensionally as total functions with the default value, and
fallible operations return `Option` / explicit outcome types.
-/

namespace AntiDrone

/-! ## Bounding boxes and IoU (`src/utils/image_utils.py`, `calculate_iou`) -/

/-- An axis-aligned bounding box `(x1, y1, x2, y2)`, as the 4-tuple used by
`DetectionResult.bbox`. -/
structure Box where
  x1 : ℚ
  y1 : ℚ
  x2 : ℚ
  y2 : ℚ
deriving DecidableEq, Repr

/-- `calculate_iou(box1, box2)` from `src/utils/image_utils.py`:
intersection corners via `max`/`min`; returns `0.0` when the intersection
is empty (`x2_i < x1_i or y2_i < y1_i`); otherwise
`intersection / union` with `union = area1 + area2 - intersection`,
guarding `union > 0`. -/
def calculate_iou (box1 box2 : Box) : ℚ :=
  let x1_i := max box1.x1 box2.x1
  let y1_i := max box1.y1 box2.y1
  let x2_i := min box1.x2 box2.x2
  let y2_i := min box1.y2 box2.y2
  if x2_i < x1_i ∨ y2_i < y1_i then 0
  else
    let intersection := (x2_i - x1_i) * (y2_i - y1_i)
    let area1 := (box1.x2 - box1.x1) * (box1.y2 - box1.y1)
    let area2 := (box2.x2 - box2.x1) * (box2.y2 - box2.y1)
    let union := area1 + area2 - intersection
    if 0 < union then intersection / union else 0

/-- A box is well formed when `x1 < x2` and `y1 < y2`. -/
def Box.WellFormed (b : Box) : Prop := b.x1 < b.x2 ∧ b.y1 < b.y2

instance (b : Box) : Decidable b.WellFormed := by unfold Box.WellFormed; infer_instance

/-- Two boxes are disjoint when they do not overlap on the x-axis or on the
y-axis. -/
def Box.Disjoint (a b : Box) : Prop :=
  a.x2 ≤ b.x1 ∨ b.x2 ≤ a.x1 ∨ a.y2 ≤ b.y1 ∨ b.y2 ≤ a.y1

instance (a b : Box) : Decidable (a.Disjoint b) := by unfold Box.Disjoint; infer_instance

/-! ## Detections (`src/detectors/base_detector.py`, `DetectionResult`) -/

/-- `DetectionResult` dataclass: bbox, confidence, class name, class id. -/
structure DetectionResult where
  bbox : Box
  confidence : ℚ
  class_name : String
  class_id : ℤ
deriving DecidableEq, Repr

/-- `DetectionResult.area`. -/
def DetectionResult.area (d : DetectionResult) : ℚ :=
  (d.bbox.x2 - d.bbox.x1) * (d.bbox.y2 - d.bbox.y1)

/-- `DetectionResult.iou`: delegates to `calculate_iou` on the two bboxes. -/
def DetectionResult.iou (d other : DetectionResult) : ℚ :=
  calculate_iou d.bbox other.bbox

/-- Closed form of `calculate_iou` with the local bindings expanded. -/
theorem calculate_iou_def (b1 b2 : Box) :
    calculate_iou b1 b2 =
      if min b1.x2 b2.x2 < max b1.x1 b2.x1 ∨ min b1.y2 b2.y2 < max b1.y1 b2.y1 then 0
      else
        if 0 < (b1.x2 - b1.x1) * (b1.y2 - b1.y1) + (b2.x2 - b2.x1) * (b2.y2 - b2.y1) -
            (min b1.x2 b2.x2 - max b1.x1 b2.x1) * (min b1.y2 b2.y2 - max b1.y1 b2.y1)
        then (min b1.x2 b2.x2 - max b1.x1 b2.x1) * (min b1.y2 b2.y2 - max b1.y1 b2.y1) /
            ((b1.x2 - b1.x1) * (b1.y2 - b1.y1) + (b2.x2 - b2.x1) * (b2.y2 - b2.y1) -
             (min b1.x2 b2.x2 - max b1.x1 b2.x1) * (min b1.y2 b2.y2 - max b1.y1 b2.y1))
        else 0 := rfl

/-- `calculate_iou` is symmetric in its two boxes. -/
theorem calculate_iou_comm (b1 b2 : Box) : calculate_iou b1 b2 = calculate_iou b2 b1 := by
  rw [calculate_iou_def, calculate_iou_def, min_comm b2.x2 b1.x2, max_comm b2.x1 b1.x1,
    min_comm b2.y2 b1.y2, max_comm b2.y1 b1.y1,
    add_comm ((b2.x2 - b2.x1) * (b2.y2 - b2.y1)) ((b1.x2 - b1.x1) * (b1.y2 - b1.y1))]

/-! ## Threat classification (`src/applications/anti_drone.py`) -/

/-- `ThreatLevel` enumeration. -/
inductive ThreatLevel where
  | LOW
  | MEDIUM
  | HIGH
  | CRITICAL
deriving DecidableEq, Repr

/-- The `threat_keywords` table of `AntiDroneSystem._assess_threat`. -/
def threat_keywords : ThreatLevel → List String
  | .CRITICAL => ["drone", "uav", "weapon", "attack", "explosive", "critical risk"]
  | .HIGH => ["suspicious", "unauthorized", "approaching", "high risk", "danger"]
  | .MEDIUM => ["unknown", "unidentified", "moderate risk", "caution"]
  | .LOW => ["clear", "safe", "normal", "low risk", "no threat"]

/-- The explicit level iteration order of the `for level in [...]` loop. -/
def levelOrder : List ThreatLevel :=
  [ThreatLevel.CRITICAL, ThreatLevel.HIGH, ThreatLevel.MEDIUM, ThreatLevel.LOW]

/-- Python's `keyword in scene_lower` substring test. -/
def containsSub (scene kw : String) : Bool :=
  decide (kw.toList <:+: scene.toList)

/-- `max([d.confidence for d in detections])` on a non-empty list (the `[]`
case is never reached by the caller, which guards on emptiness). -/
def maxConfidence : List DetectionResult → ℚ
  | [] => 0
  | d :: ds => ds.foldl (fun a r => max a r.confidence) d.confidence

/-- The keyword-scan loop of `_assess_threat`: walk the levels in order and
return the first level one of whose keywords occurs in the lowered scene
text (the inner `for keyword ... if keyword in scene_lower: return` loop
fires exactly when some keyword of the level matches). -/
def checkKeywords (scene_lower : String) : List ThreatLevel → Option ThreatLevel
  | [] => none
  | level :: rest =>
    if (threat_keywords level).any (fun kw => containsSub scene_lower kw) then some level
    else checkKeywords scene_lower rest

/-- `AntiDroneSystem._assess_threat(detections, scene_description)`:
keyword scan over the lowered scene text in the order CRITICAL, HIGH,
MEDIUM, LOW; on a match, confidence is the max detection confidence, or
`0.5` with no detections; otherwise the count-based fallback ladder. -/
def assessThreat (detections : List DetectionResult) (scene_description : String) :
    ThreatLevel × ℚ :=
  let scene_lower := scene_description.toLower
  match checkKeywords scene_lower levelOrder with
  | some level =>
      (level, if detections.isEmpty then 1/2 else maxConfidence detections)
  | none =>
      if 5 < detections.length then (ThreatLevel.MEDIUM, 3/5)
      else if 0 < detections.length then (ThreatLevel.LOW, 1/2)
      else (ThreatLevel.LOW, 3/10)

/-- Spec-side restatement of the classifier, written from the spec's words:
find the first level in severity order with any case-insensitive keyword
match; on a match, confidence is the maximum detection confidence when
detections exist and `0.5` otherwise; with no match the fallback is
`(MEDIUM, 0.6)` for more than 5 detections, `(LOW, 0.5)` for 1 to 5, and
`(LOW, 0.3)` for none. -/
def specClassify (detections : List DetectionResult) (scene_text : String) :
    ThreatLevel × ℚ :=
  match levelOrder.find?
      (fun level => (threat_keywords level).any
        (fun kw => containsSub scene_text.toLower kw)) with
  | some level => (level, if detections = [] then 1/2 else maxConfidence detections)
  | none =>
      if 5 < detections.length then (ThreatLevel.MEDIUM, 3/5)
      else if 1 ≤ detections.length then (ThreatLevel.LOW, 1/2)
      else (ThreatLevel.LOW, 3/10)

/-! ## Non-maximum suppression (`src/detectors/base_detector.py`, `nms`) -/

/-- The order used by `sorted(results, key=lambda x: x.confidence,
reverse=True)`: descending confidence. -/
def confGe (a b : DetectionResult) : Prop := b.confidence ≤ a.confidence

instance : DecidableRel confGe :=
  fun a b => inferInstanceAs (Decidable (b.confidence ≤ a.confidence))

instance : IsTotal DetectionResult confGe :=
  ⟨fun a b => le_total b.confidence a.confidence⟩

instance : IsTrans DetectionResult confGe :=
  ⟨fun _ _ _ h1 h2 => le_trans h2 h1⟩

/-- The survival predicate of the `nms` loop body: a remaining box is kept
for the next round when `current.iou(r) < iou_threshold or r.class_id !=
current.class_id`. -/
def nmsKeepPred (thr : ℚ) (current r : DetectionResult) : Bool :=
  decide (current.iou r < thr) || decide (r.class_id ≠ current.class_id)

/-- The `while results:` loop of `BaseDetector.nms`: pop the
highest-confidence box, keep it, and drop the remaining boxes of the same
class whose IoU with it reaches the threshold. -/
def nmsLoop (thr : ℚ) : List DetectionResult → List DetectionResult
  | [] => []
  | current :: rest =>
      current :: nmsLoop thr (rest.filter (nmsKeepPred thr current))
termination_by l => l.length
decreasing_by
  simp only [List.length_cons]
  exact Nat.lt_succ_of_le (List.length_filter_le _ _)

/-- `BaseDetector.nms(results, iou_threshold)`: `[]` on an empty input,
otherwise sort by descending confidence and run the suppression loop. The
`iou_threshold or self.config.get('iou_threshold', 0.45)` defaulting is
abstracted into the `thr` parameter. -/
def nms (thr : ℚ) (results : List DetectionResult) : List DetectionResult :=
  if results.isEmpty then []
  else nmsLoop thr (results.insertionSort confGe)

/-- Every output of the NMS loop is drawn from its input. -/
theorem nmsLoop_subset (thr : ℚ) :
    ∀ (n : ℕ) (l : List DetectionResult), l.length ≤ n →
      ∀ d ∈ nmsLoop thr l, d ∈ l := by
  intro n
  induction n with
  | zero =>
    intro l hl d hd
    have hnil : l = [] := List.length_eq_zero.mp (Nat.le_zero.mp hl)
    subst hnil
    simp [nmsLoop] at hd
  | succ m ih =>
    intro l hl d hd
    cases l with
    | nil => simp [nmsLoop] at hd
    | cons c rest =>
      simp only [nmsLoop] at hd
      rcases List.mem_cons.mp hd with h | h
      · exact h ▸ List.mem_cons_self _ _
      · have hlen : (rest.filter (nmsKeepPred thr c)).length ≤ m :=
          le_trans (List.length_filter_le _ _) (Nat.succ_le_succ_iff.mp hl)
        exact List.mem_cons_of_mem _ (List.mem_of_mem_filter (ih _ hlen d h))

/-- Along the NMS loop output, every later box either misses the IoU
threshold against every earlier box or differs from it in class. -/
theorem nmsLoop_pairwise (thr : ℚ) :
    ∀ (n : ℕ) (l : List DetectionResult), l.length ≤ n →
      (nmsLoop thr l).Pairwise
        (fun a b => a.iou b < thr ∨ b.class_id ≠ a.class_id) := by
  intro n
  induction n with
  | zero =>
    intro l hl
    have hnil : l = [] := List.length_eq_zero.mp (Nat.le_zero.mp hl)
    subst hnil
    simp [nmsLoop]
  | succ m ih =>
    intro l hl
    cases l with
    | nil => simp [nmsLoop]
    | cons c rest =>
      simp only [nmsLoop]
      have hlen : (rest.filter (nmsKeepPred thr c)).length ≤ m :=
        le_trans (List.length_filter_le _ _) (Nat.succ_le_succ_iff.mp hl)
      refine List.Pairwise.cons ?_ (ih _ hlen)
      intro b hb
      have hbf : b ∈ rest.filter (nmsKeepPred thr c) :=
        nmsLoop_subset thr m _ hlen b hb
      have hpred := List.of_mem_filter hbf
      simpa [nmsKeepPred] using hpred

/-- The NMS loop on a list sorted by descending confidence keeps, for each
class present, a detection of maximal confidence in that class. -/
theorem nmsLoop_retain (thr : ℚ) :
    ∀ (n : ℕ) (l : List DetectionResult), l.length ≤ n →
      l.Sorted confGe →
      ∀ cid : ℤ, (∃ d ∈ l, d.class_id = cid) →
        ∃ d ∈ nmsLoop thr l, d.class_id = cid ∧
          ∀ e ∈ l, e.class_id = cid → e.confidence ≤ d.confidence := by
  intro n
  induction n with
  | zero =>
    intro l hl _ cid hex
    obtain ⟨d, hd, _⟩ := hex
    have hnil : l = [] := List.length_eq_zero.mp (Nat.le_zero.mp hl)
    subst hnil
    simp at hd
  | succ m ih =>
    intro l hl hsort cid hex
    cases l with
    | nil =>
      obtain ⟨d, hd, _⟩ := hex
      simp at hd
    | cons c rest =>
      obtain ⟨hc_rest, hsort_rest⟩ := List.pairwise_cons.mp hsort
      by_cases hc : c.class_id = cid
      · refine ⟨c, ?_, hc, ?_⟩
        · simp only [nmsLoop]
          exact List.mem_cons_self _ _
        · intro e he _
          rcases List.mem_cons.mp he with rfl | he'
          · exact le_refl _
          · exact hc_rest e he'
      · obtain ⟨d, hd, hdc⟩ := hex
        rcases List.mem_cons.mp hd with rfl | hd'
        · exact absurd hdc hc
        · have hfilter_mem : ∀ e ∈ rest, e.class_id = cid →
              e ∈ rest.filter (nmsKeepPred thr c) := by
            intro e he hec
            refine List.mem_filter.mpr ⟨he, ?_⟩
            simp only [nmsKeepPred, Bool.or_eq_true, decide_eq_true_eq]
            right
            rw [hec]
            exact fun hcontra => hc hcontra.symm
          have hsort' : (rest.filter (nmsKeepPred thr c)).Sorted confGe :=
            List.Pairwise.sublist (List.filter_sublist _) hsort_rest
          have hlen : (rest.filter (nmsKeepPred thr c)).length ≤ m :=
            le_trans (List.length_filter_le _ _) (Nat.succ_le_succ_iff.mp hl)
          obtain ⟨d', hd'mem, hd'c, hd'max⟩ :=
            ih _ hlen hsort' cid ⟨d, hfilter_mem d hd' hdc, hdc⟩
          refine ⟨d', ?_, hd'c, ?_⟩
          · simp only [nmsLoop]
            exact List.mem_cons_of_mem _ hd'mem
          · intro e he hec
            rcases List.mem_cons.mp he with rfl | he'
            · exact absurd hec hc
            · exact hd'max e (hfilter_mem e he' hec) hec

/-- `DetectionResult.iou` inherits symmetry from `calculate_iou`. -/
theorem DetectionResult.iou_comm (a b : DetectionResult) : a.iou b = b.iou a :=
  calculate_iou_comm a.bbox b.bbox

/-- C2: the NMS output is a subset of the input; no two outputs sharing a
class id have IoU at or above the threshold (in either orientation); and
for every class id present in the input, a detection of that class with
the maximal confidence of the class is retained. -/
theorem c2_nms (thr : ℚ) (l : List DetectionResult) :
    (∀ d ∈ nms thr l, d ∈ l) ∧
    (nms thr l).Pairwise
      (fun a b => a.class_id = b.class_id → a.iou b < thr ∧ b.iou a < thr) ∧
    (∀ cid : ℤ, (∃ d ∈ l, d.class_id = cid) →
      ∃ d ∈ nms thr l, d.class_id = cid ∧
        ∀ e ∈ l, e.class_id = cid → e.confidence ≤ d.confidence) := by
  by_cases hemp : l = []
  · subst hemp
    refine ⟨?_, ?_, ?_⟩
    · intro d hd
      simp [nms] at hd
    · simp [nms]
    · rintro cid ⟨d, hd, _⟩
      simp at hd
  · have hne : l.isEmpty = false := by
      cases l with
      | nil => exact absurd rfl hemp
      | cons a as => rfl
    unfold nms
    rw [hne]
    simp only [Bool.false_eq_true, if_false]
    have hperm : List.Perm (l.insertionSort confGe) l := List.perm_insertionSort confGe l
    refine ⟨?_, ?_, ?_⟩
    · intro d hd
      exact hperm.mem_iff.mp
        (nmsLoop_subset thr (l.insertionSort confGe).length _ le_rfl d hd)
    · have hp := nmsLoop_pairwise thr (l.insertionSort confGe).length _ le_rfl
      refine hp.imp ?_
      intro a b hab hclass
      rcases hab with h | h
      · exact ⟨h, by rw [DetectionResult.iou_comm b a]; exact h⟩
      · exact absurd hclass (fun hcl => h hcl.symm)
    · rintro cid ⟨d, hd, hdc⟩
      obtain ⟨d', h1, h2, h3⟩ :=
        nmsLoop_retain thr (l.insertionSort confGe).length _ le_rfl
          (List.sorted_insertionSort confGe l) cid ⟨d, hperm.mem_iff.mpr hd, hdc⟩
      exact ⟨d', h1, h2, fun e he hec => h3 e (hperm.mem_iff.mpr he) hec⟩

/-- Two overlapping same-class sample detections used to witness C2. -/
def nmsExample : List DetectionResult :=
  [⟨Box.mk 0 0 2 2, 7/10, "drone", 0⟩,
   ⟨Box.mk 0 0 2 2, 9/10, "drone", 0⟩,
   ⟨Box.mk 5 5 6 6, 4/10, "bird", 1⟩]

/-- Witness for C2 at a concrete detection list and threshold `0.45`. -/
theorem c2_nms_witness :
    (∃ d ∈ nmsExample, d.class_id = 0) ∧
    (∃ d ∈ nms (45/100) nmsExample, d.class_id = 0 ∧
      ∀ e ∈ nmsExample, e.class_id = 0 → e.confidence ≤ d.confidence) :=
  ⟨⟨⟨Box.mk 0 0 2 2, 7/10, "drone", 0⟩, List.Mem.head _, rfl⟩,
    (c2_nms (45/100) nmsExample).2.2 0
      ⟨⟨Box.mk 0 0 2 2, 7/10, "drone", 0⟩, List.Mem.head _, rfl⟩⟩

/-- The keyword-scan loop equals a first-match search over the ordered
level table. -/
theorem checkKeywords_eq_find (s : String) (ls : List ThreatLevel) :
    checkKeywords s ls =
      ls.find? (fun level => (threat_keywords level).any (fun kw => containsSub s kw)) := by
  induction ls with
  | nil => rfl
  | cons l rest ih =>
    simp only [checkKeywords, List.find?]
    cases h : (threat_keywords l).any (fun kw => containsSub s kw) with
    | true => simp [h]
    | false => simp [h, ih]

/-- C1: `_assess_threat` performs case-insensitive substring search of the
scene text against the fixed keyword table in the order CRITICAL, HIGH,
MEDIUM, LOW; the first matching level is returned with confidence the max
detection confidence (or `0.5` with no detections); with no match the
fallback is `(MEDIUM, 0.6)` for more than 5 detections, `(LOW, 0.5)` for
1 to 5, and `(LOW, 0.3)` for none — i.e. the code coincides with the
spec-side classifier on every input. -/
theorem c1_assessThreat_spec (detections : List DetectionResult) (scene : String) :
    assessThreat detections scene = specClassify detections scene := by
  simp only [assessThreat, specClassify, checkKeywords_eq_find]
  cases levelOrder.find?
      (fun level => (threat_keywords level).any
        (fun kw => containsSub scene.toLower kw)) with
  | none => rfl
  | some level => cases detections <;> rfl

/-- C6: for well-formed boxes `calculate_iou` lands in `[0, 1]`, a box has
IoU `1` with itself, and disjoint boxes have IoU `0` (with the union taken
as the sum of the two raw areas minus the intersection, as in the code). -/
theorem c6_calculate_iou (b1 b2 : Box) (h1 : b1.WellFormed) (h2 : b2.WellFormed) :
    (0 ≤ calculate_iou b1 b2 ∧ calculate_iou b1 b2 ≤ 1) ∧
    calculate_iou b1 b1 = 1 ∧
    (b1.Disjoint b2 → calculate_iou b1 b2 = 0) := by
  obtain ⟨hx1, hy1⟩ := h1
  obtain ⟨hx2, hy2⟩ := h2
  have ha1 : 0 < (b1.x2 - b1.x1) * (b1.y2 - b1.y1) := mul_pos (by linarith) (by linarith)
  have ha2 : 0 < (b2.x2 - b2.x1) * (b2.y2 - b2.y1) := mul_pos (by linarith) (by linarith)
  refine ⟨?_, ?_, ?_⟩
  · rw [calculate_iou_def]
    by_cases hcond : min b1.x2 b2.x2 < max b1.x1 b2.x1 ∨ min b1.y2 b2.y2 < max b1.y1 b2.y1
    · rw [if_pos hcond]; norm_num
    · rw [if_neg hcond]
      push_neg at hcond
      obtain ⟨hxi, hyi⟩ := hcond
      have hw : 0 ≤ min b1.x2 b2.x2 - max b1.x1 b2.x1 := by linarith
      have hh : 0 ≤ min b1.y2 b2.y2 - max b1.y1 b2.y1 := by linarith
      have hw1 : min b1.x2 b2.x2 - max b1.x1 b2.x1 ≤ b1.x2 - b1.x1 := by
        have := min_le_left b1.x2 b2.x2
        have := le_max_left b1.x1 b2.x1
        linarith
      have hh1 : min b1.y2 b2.y2 - max b1.y1 b2.y1 ≤ b1.y2 - b1.y1 := by
        have := min_le_left b1.y2 b2.y2
        have := le_max_left b1.y1 b2.y1
        linarith
      have hw2 : min b1.x2 b2.x2 - max b1.x1 b2.x1 ≤ b2.x2 - b2.x1 := by
        have := min_le_right b1.x2 b2.x2
        have := le_max_right b1.x1 b2.x1
        linarith
      have hh2 : min b1.y2 b2.y2 - max b1.y1 b2.y1 ≤ b2.y2 - b2.y1 := by
        have := min_le_right b1.y2 b2.y2
        have := le_max_right b1.y1 b2.y1
        linarith
      have hi0 : 0 ≤ (min b1.x2 b2.x2 - max b1.x1 b2.x1) *
          (min b1.y2 b2.y2 - max b1.y1 b2.y1) := mul_nonneg hw hh
      have hi1 : (min b1.x2 b2.x2 - max b1.x1 b2.x1) * (min b1.y2 b2.y2 - max b1.y1 b2.y1) ≤
          (b1.x2 - b1.x1) * (b1.y2 - b1.y1) :=
        mul_le_mul hw1 hh1 hh (by linarith)
      have hi2 : (min b1.x2 b2.x2 - max b1.x1 b2.x1) * (min b1.y2 b2.y2 - max b1.y1 b2.y1) ≤
          (b2.x2 - b2.x1) * (b2.y2 - b2.y1) :=
        mul_le_mul hw2 hh2 hh (by linarith)
      have hu : 0 < (b1.x2 - b1.x1) * (b1.y2 - b1.y1) + (b2.x2 - b2.x1) * (b2.y2 - b2.y1) -
          (min b1.x2 b2.x2 - max b1.x1 b2.x1) * (min b1.y2 b2.y2 - max b1.y1 b2.y1) := by
        linarith
      rw [if_pos hu]
      constructor
      · exact div_nonneg hi0 (le_of_lt hu)
      · rw [div_le_one hu]
        linarith
  · rw [calculate_iou_def]
    simp only [min_self, max_self]
    rw [if_neg (by push_neg; constructor <;> linarith)]
    rw [if_pos (by linarith)]
    rw [show (b1.x2 - b1.x1) * (b1.y2 - b1.y1) + (b1.x2 - b1.x1) * (b1.y2 - b1.y1) -
        (b1.x2 - b1.x1) * (b1.y2 - b1.y1) = (b1.x2 - b1.x1) * (b1.y2 - b1.y1) by ring]
    exact div_self (ne_of_gt ha1)
  · intro hd
    rw [calculate_iou_def]
    by_cases hcond : min b1.x2 b2.x2 < max b1.x1 b2.x1 ∨ min b1.y2 b2.y2 < max b1.y1 b2.y1
    · rw [if_pos hcond]
    · rw [if_neg hcond]
      push_neg at hcond
      obtain ⟨hxi, hyi⟩ := hcond
      have hinter : (min b1.x2 b2.x2 - max b1.x1 b2.x1) *
          (min b1.y2 b2.y2 - max b1.y1 b2.y1) = 0 := by
        rcases hd with h | h | h | h
        · have hx : min b1.x2 b2.x2 ≤ max b1.x1 b2.x1 :=
            le_trans (min_le_left _ _) (le_trans h (le_max_right _ _))
          have : min b1.x2 b2.x2 - max b1.x1 b2.x1 = 0 := by linarith
          rw [this, zero_mul]
        · have hx : min b1.x2 b2.x2 ≤ max b1.x1 b2.x1 :=
            le_trans (min_le_right _ _) (le_trans h (le_max_left _ _))
          have : min b1.x2 b2.x2 - max b1.x1 b2.x1 = 0 := by linarith
          rw [this, zero_mul]
        · have hy : min b1.y2 b2.y2 ≤ max b1.y1 b2.y1 :=
            le_trans (min_le_left _ _) (le_trans h (le_max_right _ _))
          have : min b1.y2 b2.y2 - max b1.y1 b2.y1 = 0 := by linarith
          rw [this, mul_zero]
        · have hy : min b1.y2 b2.y2 ≤ max b1.y1 b2.y1 :=
            le_trans (min_le_right _ _) (le_trans h (le_max_left _ _))
          have : min b1.y2 b2.y2 - max b1.y1 b2.y1 = 0 := by linarith
          rw [this, mul_zero]
      rw [hinter]
      simp

/-- Witness for C6 at concrete boxes: the unit box and the disjoint unit
box shifted right by 2. -/
theorem c6_calculate_iou_witness :
    (Box.mk 0 0 1 1).WellFormed ∧ (Box.mk 2 0 3 1).WellFormed ∧
    (((0 ≤ calculate_iou (Box.mk 0 0 1 1) (Box.mk 2 0 3 1) ∧
        calculate_iou (Box.mk 0 0 1 1) (Box.mk 2 0 3 1) ≤ 1) ∧
      calculate_iou (Box.mk 0 0 1 1) (Box.mk 0 0 1 1) = 1 ∧
      ((Box.mk 0 0 1 1).Disjoint (Box.mk 2 0 3 1) →
        calculate_iou (Box.mk 0 0 1 1) (Box.mk 2 0 3 1) = 0))) :=
  ⟨by decide, by decide,
    c6_calculate_iou (Box.mk 0 0 1 1) (Box.mk 2 0 3 1) (by decide) (by decide)⟩

/-! ## MetricsTracker (`src/utils/metrics.py`) -/

/-- `MetricsTracker` state: `self.metrics` (a `defaultdict(list)`, modelled
extensionally as a total function defaulting to `[]`) and `self.counters`
(a `defaultdict(int)` defaulting to `0`). `self.start_times` only serves
`start_timer`/`stop_timer`, which no claim touches, and is omitted. -/
structure MetricsTracker where
  metrics : String → List ℚ
  counters : String → ℤ

/-- A freshly constructed tracker: both dicts empty. -/
def MetricsTracker.init : MetricsTracker := ⟨fun _ => [], fun _ => 0⟩

/-- `record(metric_name, value)`: append `value` to the named sample list. -/
def record (t : MetricsTracker) (metric_name : String) (value : ℚ) : MetricsTracker :=
  { t with metrics := fun n =>
      if n = metric_name then t.metrics metric_name ++ [value] else t.metrics n }

/-- `increment(counter_name, value)`: add `value` to the named counter. -/
def increment (t : MetricsTracker) (counter_name : String) (value : ℤ) : MetricsTracker :=
  { t with counters := fun n =>
      if n = counter_name then t.counters counter_name + value else t.counters n }

/-- Python `sorted` on numbers: ascending order. -/
def pySorted (l : List ℚ) : List ℚ := l.insertionSort (· ≤ ·)

/-- `statistics.mean`: the arithmetic mean (the `statistics` module works
on exact fractions, so `ℚ` is a faithful model). -/
def pyMean (l : List ℚ) : ℚ := l.sum / l.length

/-- `statistics.median`: middle of the sorted data, averaging the two
middle values for even length. -/
def pyMedian (l : List ℚ) : ℚ :=
  let s := pySorted l
  let n := s.length
  if n % 2 = 1 then s.getD (n / 2) 0
  else (s.getD (n / 2 - 1) 0 + s.getD (n / 2) 0) / 2

/-- Python `min` on a non-empty list (the `[]` case is unreachable in the
caller, which guards on emptiness). -/
def pyMin : List ℚ → ℚ
  | [] => 0
  | x :: xs => xs.foldl min x

/-- Python `max` on a non-empty list. -/
def pyMax : List ℚ → ℚ
  | [] => 0
  | x :: xs => xs.foldl max x

/-- The square of `statistics.stdev(values)`: the sample variance with the
Bessel `n - 1` divisor. `statistics.stdev` itself is the square root of
this; the development carries the square to stay inside `ℚ`, which loses
nothing because squaring is injective on nonnegative reals. -/
def stdevSq (l : List ℚ) : ℚ :=
  ((l.map (fun x => (x - pyMean l) ^ 2)).sum) / ((l.length : ℚ) - 1)

/-- The square of the population standard deviation
(`Σ (x - mean)² / n`), which the spec names for the `stdev` field. -/
def popVarianceSq (l : List ℚ) : ℚ :=
  ((l.map (fun x => (x - pyMean l) ^ 2)).sum) / ((l.length : ℚ))

/-- `MetricsTracker._percentile(values, percentile)`:
`index = int(len(sorted_values) * percentile / 100)` (truncation = floor
here, all quantities nonnegative) clamped to the last index of the
ascending-sorted samples. -/
def percentileFn (values : List ℚ) (percentile : ℕ) : ℚ :=
  if values = [] then 0
  else
    let sorted_values := pySorted values
    let index := sorted_values.length * percentile / 100
    sorted_values.getD (min index (sorted_values.length - 1)) 0

/-- The dict returned by `_compute_summary`: either `{'count': 0}` or the
full statistics record. The `stdev` entry is carried as its square
(`stdevSq` slot) to stay inside `ℚ`. -/
inductive Summary where
  | countZero
  | stats (count : ℕ) (mean median mn mx sdSq p95 p99 : ℚ)
deriving DecidableEq, Repr

/-- `MetricsTracker._compute_summary(metric_name)`: `{'count': 0}` for an
unknown or empty name, otherwise count, mean, median, min, max, stdev
(`0.0` unless more than one sample), and the 95th and 99th percentiles. -/
def computeSummary (t : MetricsTracker) (metric_name : String) : Summary :=
  let values := t.metrics metric_name
  if values = [] then .countZero
  else
    .stats values.length (pyMean values) (pyMedian values) (pyMin values) (pyMax values)
      (if 1 < values.length then stdevSq values else 0)
      (percentileFn values 95) (percentileFn values 99)

/-- `get_summary(metric_name)` with a non-`None` name delegates directly
to `_compute_summary` (a total function: it never fails). -/
def getSummary (t : MetricsTracker) (metric_name : String) : Summary :=
  computeSummary t metric_name

/-- The summary record the claim describes, differing from the code only
in the `stdev` slot: the claim asks for the population standard
deviation, so the slot carries `popVarianceSq` (its square). -/
def claimedSummary (values : List ℚ) : Summary :=
  if values = [] then .countZero
  else
    .stats values.length (pyMean values) (pyMedian values) (pyMin values) (pyMax values)
      (if 1 < values.length then popVarianceSq values else 0)
      (percentileFn values 95) (percentileFn values 99)

/-- `reset_metric(metric_name)`: clear the named sample list and zero the
named counter. The Python `in`-guards only skip work on absent keys,
which already read as the defaults, so the unconditional form below is
observationally the same update. -/
def resetMetric (t : MetricsTracker) (metric_name : String) : MetricsTracker :=
  { metrics := fun n => if n = metric_name then [] else t.metrics n,
    counters := fun n => if n = metric_name then 0 else t.counters n }

/-- Outcome of a Python block: normal completion or a raised exception. -/
inductive PyOutcome (ε : Type) where
  | ok
  | raised (e : ε)
deriving DecidableEq, Repr

/-- The `timer(metric_name)` context manager: `try: yield` runs the body,
and the `finally:` block records the elapsed wall-clock time exactly once
after the body, whether the body completed or raised; the body's outcome
is then propagated unchanged. The body is an arbitrary tracker
transformer that reports how it exited. -/
def timerScope (ε : Type) (t : MetricsTracker) (metric_name : String) (elapsed : ℚ)
    (body : MetricsTracker → PyOutcome ε × MetricsTracker) :
    PyOutcome ε × MetricsTracker :=
  let r := body t
  (r.1, record r.2 metric_name elapsed)

/-- `foldl min` over a list yields one of its elements. -/
theorem foldl_min_mem (xs : List ℚ) : ∀ x : ℚ, xs.foldl min x ∈ x :: xs := by
  induction xs with
  | nil => intro x; simp
  | cons a as ih =>
    intro x
    rw [List.foldl_cons]
    have h := ih (min x a)
    rcases List.mem_cons.mp h with h | h
    · rw [h]
      rcases min_choice x a with hc | hc
      · rw [hc]; exact List.mem_cons_self _ _
      · rw [hc]; exact List.mem_cons_of_mem _ (List.mem_cons_self _ _)
    · exact List.mem_cons_of_mem _ (List.mem_cons_of_mem _ h)

/-- `foldl min` is a lower bound for the seed and every element. -/
theorem foldl_min_le (xs : List ℚ) : ∀ x y : ℚ, y ∈ x :: xs → xs.foldl min x ≤ y := by
  induction xs with
  | nil =>
    intro x y hy
    rcases List.mem_cons.mp hy with rfl | h
    · simp
    · simp at h
  | cons a as ih =>
    intro x y hy
    rw [List.foldl_cons]
    rcases List.mem_cons.mp hy with heq | hy'
    · rw [heq]
      exact le_trans (ih (min x a) (min x a) (List.mem_cons_self _ _)) (min_le_left x a)
    · rcases List.mem_cons.mp hy' with heq | hy''
      · rw [heq]
        exact le_trans (ih (min x a) (min x a) (List.mem_cons_self _ _)) (min_le_right x a)
      · exact ih (min x a) y (List.mem_cons_of_mem _ hy'')

/-- `foldl max` over a list yields one of its elements. -/
theorem foldl_max_mem (xs : List ℚ) : ∀ x : ℚ, xs.foldl max x ∈ x :: xs := by
  induction xs with
  | nil => intro x; simp
  | cons a as ih =>
    intro x
    rw [List.foldl_cons]
    have h := ih (max x a)
    rcases List.mem_cons.mp h with h | h
    · rw [h]
      rcases max_choice x a with hc | hc
      · rw [hc]; exact List.mem_cons_self _ _
      · rw [hc]; exact List.mem_cons_of_mem _ (List.mem_cons_self _ _)
    · exact List.mem_cons_of_mem _ (List.mem_cons_of_mem _ h)

/-- `foldl max` is an upper bound for the seed and every element. -/
theorem le_foldl_max (xs : List ℚ) : ∀ x y : ℚ, y ∈ x :: xs → y ≤ xs.foldl max x := by
  induction xs with
  | nil =>
    intro x y hy
    rcases List.mem_cons.mp hy with rfl | h
    · simp
    · simp at h
  | cons a as ih =>
    intro x y hy
    rw [List.foldl_cons]
    rcases List.mem_cons.mp hy with heq | hy'
    · rw [heq]
      exact le_trans (le_max_left x a) (ih (max x a) (max x a) (List.mem_cons_self _ _))
    · rcases List.mem_cons.mp hy' with heq | hy''
      · rw [heq]
        exact le_trans (le_max_right x a) (ih (max x a) (max x a) (List.mem_cons_self _ _))
      · exact ih (max x a) y (List.mem_cons_of_mem _ hy'')

/-- `pyMin` of a non-empty list is a member of it. -/
theorem pyMin_mem (l : List ℚ) (h : l ≠ []) : pyMin l ∈ l := by
  cases l with
  | nil => exact absurd rfl h
  | cons a as => exact foldl_min_mem as a

/-- `pyMin` of a non-empty list bounds every element below. -/
theorem pyMin_le (l : List ℚ) (x : ℚ) (hx : x ∈ l) : pyMin l ≤ x := by
  cases l with
  | nil => simp at hx
  | cons a as => exact foldl_min_le as a x hx

/-- `pyMax` of a non-empty list is a member of it. -/
theorem pyMax_mem (l : List ℚ) (h : l ≠ []) : pyMax l ∈ l := by
  cases l with
  | nil => exact absurd rfl h
  | cons a as => exact foldl_max_mem as a

/-- `pyMax` of a non-empty list bounds every element above. -/
theorem le_pyMax (l : List ℚ) (x : ℚ) (hx : x ∈ l) : x ≤ pyMax l := by
  cases l with
  | nil => simp at hx
  | cons a as => exact le_foldl_max as a x hx

/-- A tracker with the two samples `1.0` and `3.0` recorded under `"m"`. -/
def stdevExampleTracker : MetricsTracker :=
  record (record MetricsTracker.init "m" 1) "m" 3

/-- Counterexample for C3: on the samples `[1.0, 3.0]` the code's summary
differs from the claim's, because `statistics.stdev` is the SAMPLE
standard deviation (`√2` here, squared variance `2`) while the claim
asks for the population standard deviation (`1` here, squared variance
`1`); both are nonnegative, so their squares differing refutes the
claimed equality. -/
theorem c3_counterexample :
    getSummary stdevExampleTracker "m" ≠
      claimedSummary (stdevExampleTracker.metrics "m") := by
  have hm : stdevExampleTracker.metrics "m" = [1, 3] := by
    simp [stdevExampleTracker, record, MetricsTracker.init]
  have hsample : stdevSq [1, 3] = 2 := by
    norm_num [stdevSq, pyMean]
  have hpop : popVarianceSq [1, 3] = 1 := by
    norm_num [popVarianceSq, pyMean]
  intro heq
  unfold getSummary computeSummary claimedSummary at heq
  rw [hm] at heq
  simp [hsample, hpop] at heq

/-- C3 (amended): for a metric name with recorded samples, `get_summary`
returns the record whose count, mean, median, min, max and nearest-rank
95th/99th percentiles are as the claim states, but whose stdev field is
the SAMPLE standard deviation (Bessel `n - 1` divisor; `0.0` with fewer
than 2 samples) rather than the population one; for an unknown or empty
metric name it returns `{'count': 0}` (totality: it never fails). The
min/max slots are characterized as a member of the samples bounding all
samples, the stdev slot by its square. -/
theorem c3_summary_amended (t : MetricsTracker) (name : String) :
    (t.metrics name = [] → getSummary t name = Summary.countZero) ∧
    (t.metrics name ≠ [] →
      ∃ mn mx : ℚ,
        getSummary t name = Summary.stats (t.metrics name).length
            (pyMean (t.metrics name)) (pyMedian (t.metrics name)) mn mx
            (if 1 < (t.metrics name).length then stdevSq (t.metrics name) else 0)
            (percentileFn (t.metrics name) 95) (percentileFn (t.metrics name) 99) ∧
        mn ∈ t.metrics name ∧ (∀ x ∈ t.metrics name, mn ≤ x) ∧
        mx ∈ t.metrics name ∧ (∀ x ∈ t.metrics name, x ≤ mx)) := by
  constructor
  · intro h
    simp only [getSummary, computeSummary]
    rw [if_pos h]
  · intro h
    refine ⟨pyMin (t.metrics name), pyMax (t.metrics name), ?_, pyMin_mem _ h,
      fun x hx => pyMin_le _ x hx, pyMax_mem _ h, fun x hx => le_pyMax _ x hx⟩
    simp only [getSummary, computeSummary]
    rw [if_neg h]

/-- Witness for C3's amended theorem: the recorded samples under `"m"` and
the unknown name `"nope"` on a concrete tracker. -/
theorem c3_summary_amended_witness :
    (stdevExampleTracker.metrics "nope" = [] ∧
      getSummary stdevExampleTracker "nope" = Summary.countZero) ∧
    (stdevExampleTracker.metrics "m" ≠ [] ∧
      ∃ mn mx : ℚ,
        getSummary stdevExampleTracker "m" = Summary.stats
            (stdevExampleTracker.metrics "m").length
            (pyMean (stdevExampleTracker.metrics "m"))
            (pyMedian (stdevExampleTracker.metrics "m")) mn mx
            (if 1 < (stdevExampleTracker.metrics "m").length then
              stdevSq (stdevExampleTracker.metrics "m") else 0)
            (percentileFn (stdevExampleTracker.metrics "m") 95)
            (percentileFn (stdevExampleTracker.metrics "m") 99) ∧
        mn ∈ stdevExampleTracker.metrics "m" ∧
        (∀ x ∈ stdevExampleTracker.metrics "m", mn ≤ x) ∧
        mx ∈ stdevExampleTracker.metrics "m" ∧
        (∀ x ∈ stdevExampleTracker.metrics "m", x ≤ mx)) :=
  ⟨⟨by decide, (c3_summary_amended stdevExampleTracker "nope").1 (by decide)⟩,
   ⟨by decide, (c3_summary_amended stdevExampleTracker "m").2 (by decide)⟩⟩

/-- C7: however the body of a `timer` scope exits — normal completion or an
exception — exactly one sample (the elapsed time) is appended under the
scope's metric name when the scope exits, every other metric and all
counters are untouched, and the body's outcome is propagated unchanged. -/
theorem c7_timer_records_once (ε : Type) (t : MetricsTracker) (name : String) (elapsed : ℚ)
    (body : MetricsTracker → PyOutcome ε × MetricsTracker) :
    ((timerScope ε t name elapsed body).2.metrics name =
      (body t).2.metrics name ++ [elapsed]) ∧
    (((timerScope ε t name elapsed body).2.metrics name).length =
      ((body t).2.metrics name).length + 1) ∧
    (∀ n, n ≠ name →
      (timerScope ε t name elapsed body).2.metrics n = (body t).2.metrics n) ∧
    ((timerScope ε t name elapsed body).2.counters = (body t).2.counters) ∧
    (timerScope ε t name elapsed body).1 = (body t).1 := by
  unfold timerScope record
  refine ⟨by simp, by simp, ?_, rfl, rfl⟩
  intro n hn
  simp [hn]

/-- A sample body for the C7 witness: raises an exception, leaving the
tracker unchanged. -/
def c7RaisingBody : MetricsTracker → PyOutcome Unit × MetricsTracker :=
  fun s => (PyOutcome.raised (), s)

/-- Witness for C7: a scope around a raising body records exactly one
sample under `"t"`, leaves `"other"` untouched, and re-raises. -/
theorem c7_timer_records_once_witness :
    ((timerScope Unit MetricsTracker.init "t" 2 c7RaisingBody).2.metrics "t" =
      (c7RaisingBody MetricsTracker.init).2.metrics "t" ++ [2]) ∧
    ("other" ≠ "t" →
      (timerScope Unit MetricsTracker.init "t" 2 c7RaisingBody).2.metrics "other" =
        (c7RaisingBody MetricsTracker.init).2.metrics "other") ∧
    (timerScope Unit MetricsTracker.init "t" 2 c7RaisingBody).1 =
      (c7RaisingBody MetricsTracker.init).1 :=
  ⟨(c7_timer_records_once Unit MetricsTracker.init "t" 2 c7RaisingBody).1,
   fun h => (c7_timer_records_once Unit MetricsTracker.init "t" 2 c7RaisingBody).2.2.1 "other" h,
   (c7_timer_records_once Unit MetricsTracker.init "t" 2 c7RaisingBody).2.2.2.2⟩

/-- C9: `reset_metric(name)` empties the sample list under `name` and
zeroes the counter `name`, leaving every other metric's samples and every
other counter unchanged. -/
theorem c9_resetMetric_frame (t : MetricsTracker) (name : String) :
    (resetMetric t name).metrics name = [] ∧
    (resetMetric t name).counters name = 0 ∧
    (∀ n, n ≠ name → (resetMetric t name).metrics n = t.metrics n) ∧
    (∀ n, n ≠ name → (resetMetric t name).counters n = t.counters n) := by
  refine ⟨by simp [resetMetric], by simp [resetMetric], ?_, ?_⟩ <;>
    intro n hn <;> simp [resetMetric, hn]

/-- Witness for C9 on a concrete tracker holding a sample and a counter
under two distinct names. -/
theorem c9_resetMetric_frame_witness :
    ((resetMetric (increment stdevExampleTracker "hits" 4) "m").metrics "m" = [] ∧
      (resetMetric (increment stdevExampleTracker "hits" 4) "m").counters "m" = 0) ∧
    ("hits" ≠ "m" ∧
      (resetMetric (increment stdevExampleTracker "hits" 4) "m").counters "hits" =
        (increment stdevExampleTracker "hits" 4).counters "hits") :=
  ⟨⟨(c9_resetMetric_frame (increment stdevExampleTracker "hits" 4) "m").1,
    (c9_resetMetric_frame (increment stdevExampleTracker "hits" 4) "m").2.1⟩,
   ⟨by decide,
    (c9_resetMetric_frame (increment stdevExampleTracker "hits" 4) "m").2.2.2 "hits" (by decide)⟩⟩

/-! ## Bounded queues and the realtime pipeline
(`src/applications/video_processor.py`) -/

/-- A `queue.Queue(maxsize=...)`: a bounded FIFO, modelled by its capacity
and current items (front of the list = oldest). -/
structure BQueue (α : Type) where
  maxsize : ℕ
  items : List α

/-- `queue.Queue` fullness: with a positive `maxsize` the queue is full
when it holds at least `maxsize` items (`maxsize <= 0` means unbounded). -/
def BQueue.full (q : BQueue α) : Bool :=
  decide (0 < q.maxsize) && decide (q.maxsize ≤ q.items.length)

/-- `Queue.put_nowait(item)`: enqueue at the tail, or raise `queue.Full`
(`none`) when the queue is full. -/
def BQueue.put_nowait (q : BQueue α) (x : α) : Option (BQueue α) :=
  if q.full then none else some { q with items := q.items ++ [x] }

/-- The capture role's push in `_capture_frames`:
`try: self.frame_queue.put_nowait(...) except: pass` — a frame offered to
a full queue is silently dropped; no exception escapes. -/
def offerFrame (q : BQueue α) (x : α) : BQueue α :=
  match q.put_nowait x with
  | some q2 => q2
  | none => q

/-- Outcome of `Queue.put(item)` with the default `block=True`: the put
completes immediately when there is room, and otherwise blocks until a
consumer makes room (here: no consumer runs, so a full queue blocks). -/
inductive PutOutcome (α : Type) where
  | completed (q : BQueue α)
  | blocked

/-- `Queue.put(item)` (blocking form). -/
def BQueue.put_blocking (q : BQueue α) (x : α) : PutOutcome α :=
  if q.full then .blocked else .completed { q with items := q.items ++ [x] }

/-- The result publication of `_process_frames`:
`self.result_queue.put((frame_count, result))` — a plain blocking put on
the bounded result queue. -/
def publishResult (ρ : Type) (rq : BQueue (ℕ × ρ)) (frame_count : ℕ) (result : ρ) :
    PutOutcome (ℕ × ρ) :=
  rq.put_blocking (frame_count, result)

/-- The capture role offering a burst of frames while the processing role
consumes nothing: `foldl` of the silent-drop push. -/
def pushAll (q : BQueue α) (xs : List α) : BQueue α :=
  xs.foldl offerFrame q

/-- The frame-selection loop of `_capture_frames`, starting at counter
`frame_count` over the frames the source yields: a frame is converted and
offered to the frame queue exactly when `frame_count % frame_skip == 0`,
and the counter increments on every frame. The second component records
which `(frame_count, frame)` pairs were offered (ghost instrumentation of
the push sites). -/
def captureLoop (frame_skip : ℕ) :
    BQueue (ℕ × α) → ℕ → List α → BQueue (ℕ × α) × List (ℕ × α)
  | q, _, [] => (q, [])
  | q, frame_count, frame :: rest =>
    if frame_count % frame_skip = 0 then
      let res := captureLoop frame_skip (offerFrame q (frame_count, frame))
        (frame_count + 1) rest
      (res.1, (frame_count, frame) :: res.2)
    else
      captureLoop frame_skip q (frame_count + 1) rest

/-- The frame-selection loop of `process_video_file`: a frame is processed
(appended to `results`) exactly when `frame_count % self.frame_skip == 0`. -/
def fileProcessSelected (frame_skip : ℕ) : ℕ → List α → List (ℕ × α)
  | _, [] => []
  | frame_count, frame :: rest =>
    if frame_count % frame_skip = 0 then
      (frame_count, frame) :: fileProcessSelected frame_skip (frame_count + 1) rest
    else fileProcessSelected frame_skip (frame_count + 1) rest

/-- `VideoProcessor.__init__`'s sampling stride default: the single
constructor parameter `frame_skip: int = 5`, shared by file processing
and realtime capture. -/
def defaultFrameSkip : ℕ := 5

/-- The two operating modes of `VideoProcessor`. -/
inductive VideoMode where
  | file
  | live
deriving DecidableEq, Repr

/-- The per-mode default stride the claim asserts: 5 for file processing
and 10 for live streams. -/
def claimedDefaultFrameSkip : VideoMode → ℕ
  | .file => 5
  | .live => 10

/-- Spec-side selection: exactly the frames whose counter (starting at
`start`) is a multiple of the stride. -/
def specSelected (stride : ℕ) (start : ℕ) (frames : List α) : List (ℕ × α) :=
  ((List.range' start frames.length).zip frames).filter
    (fun p => decide (p.1 % stride = 0))

/-- Offering to a full queue silently drops the item. -/
theorem offerFrame_full (q : BQueue α) (x : α) (h : q.full = true) :
    offerFrame q x = q := by
  simp [offerFrame, BQueue.put_nowait, h]

/-- Offering to a queue with room appends at the tail and keeps the
capacity. -/
theorem offerFrame_not_full (q : BQueue α) (x : α) (h : q.full = false) :
    (offerFrame q x).items = q.items ++ [x] ∧ (offerFrame q x).maxsize = q.maxsize := by
  simp [offerFrame, BQueue.put_nowait, h]

/-- A burst of offers with an idle consumer retains the prefix of the
burst that fits in the remaining room. -/
theorem pushAll_items (xs : List α) :
    ∀ q : BQueue α, 0 < q.maxsize →
      (pushAll q xs).items = q.items ++ xs.take (q.maxsize - q.items.length) := by
  induction xs with
  | nil => intro q _; simp [pushAll]
  | cons x xs ih =>
    intro q hq
    simp only [pushAll, List.foldl_cons]
    cases hf : q.full with
    | true =>
      rw [offerFrame_full q x hf]
      have h0 : q.maxsize - q.items.length = 0 := by
        simp [BQueue.full] at hf
        omega
      rw [show xs.foldl offerFrame q = pushAll q xs from rfl, ih q hq, h0]
      simp
    | false =>
      obtain ⟨hit, hmax⟩ := offerFrame_not_full q x hf
      have hlt : q.items.length < q.maxsize := by
        simp [BQueue.full] at hf
        omega
      have hq2 : 0 < (offerFrame q x).maxsize := by rw [hmax]; exact hq
      rw [show xs.foldl offerFrame (offerFrame q x) = pushAll (offerFrame q x) xs from rfl,
        ih (offerFrame q x) hq2, hit, hmax]
      have hk : q.maxsize - q.items.length = (q.maxsize - (q.items.length + 1)) + 1 := by
        omega
      rw [hk, List.take_succ_cons]
      simp

/-- C5: with a positive capacity and the processing role consuming
nothing, offering a burst of frames to the empty frame queue retains
exactly the prefix that fits: an offer to a full queue is a silent no-op
(the push is total — `queue.Full` is caught and swallowed, so no
exception is raised), an offer to a non-full queue enqueues at the tail,
and offering more frames than the capacity leaves exactly
`capacity`-many frames in the queue. -/
theorem c5_silent_drop (α : Type) (cap : ℕ) (frames : List α) (hcap : 0 < cap) :
    (pushAll (BQueue.mk cap ([] : List α)) frames).items = frames.take cap ∧
    (cap ≤ frames.length →
      (pushAll (BQueue.mk cap ([] : List α)) frames).items.length = cap) ∧
    (∀ (q : BQueue α) (x : α), q.full = true → offerFrame q x = q) ∧
    (∀ (q : BQueue α) (x : α), q.full = false →
      (offerFrame q x).items = q.items ++ [x]) := by
  have h1 : (pushAll (BQueue.mk cap ([] : List α)) frames).items = frames.take cap := by
    have := pushAll_items frames (BQueue.mk cap []) hcap
    simpa using this
  refine ⟨h1, ?_, fun q x h => offerFrame_full q x h,
    fun q x h => (offerFrame_not_full q x h).1⟩
  intro hle
  rw [h1, List.length_take]
  omega

/-- Witness for C5: capacity 2, three frames offered — the first two are
retained, the third is silently dropped. -/
theorem c5_silent_drop_witness :
    (0 < 2) ∧
    ((pushAll (BQueue.mk 2 ([] : List ℕ)) [7, 8, 9]).items = [7, 8, 9].take 2 ∧
     (2 ≤ [7, 8, 9].length →
       (pushAll (BQueue.mk 2 ([] : List ℕ)) [7, 8, 9]).items.length = 2) ∧
     (∀ (q : BQueue ℕ) (x : ℕ), q.full = true → offerFrame q x = q) ∧
     (∀ (q : BQueue ℕ) (x : ℕ), q.full = false →
       (offerFrame q x).items = q.items ++ [x])) :=
  ⟨by decide, c5_silent_drop ℕ 2 [7, 8, 9] (by decide)⟩

/-- Counterexample for C4: with the bounded result queue full (capacity 1
holding one pair), the processing role's `result_queue.put((seq, result))`
blocks — refuting the claim that this push never blocks in every result
queue state including a full one. -/
theorem c4_counterexample :
    publishResult ℕ (BQueue.mk 1 [(0, 5)]) 1 6 = PutOutcome.blocked := rfl

/-- C4 (amended): the result publication in `_process_frames` is a plain
blocking `Queue.put`: it blocks exactly when the bounded result queue is
full, and otherwise completes immediately by appending the (sequence,
result) pair — so the dequeue-with-timeout is not the only potentially
blocking operation of the processing role. -/
theorem c4_result_put_amended (ρ : Type) (rq : BQueue (ℕ × ρ)) (fc : ℕ) (r : ρ) :
    (publishResult ρ rq fc r = PutOutcome.blocked ↔ rq.full = true) ∧
    (rq.full = false →
      publishResult ρ rq fc r =
        PutOutcome.completed (BQueue.mk rq.maxsize (rq.items ++ [(fc, r)]))) := by
  unfold publishResult BQueue.put_blocking
  cases hf : rq.full with
  | true => simp [hf]
  | false => simp [hf]

/-- Witness for C4's amended theorem: a non-full result queue accepts the
pair immediately. -/
theorem c4_result_put_amended_witness :
    (BQueue.mk 2 ([] : List (ℕ × ℕ))).full = false ∧
    publishResult ℕ (BQueue.mk 2 []) 1 6 =
      PutOutcome.completed (BQueue.mk 2 [(1, 6)]) :=
  ⟨rfl, (c4_result_put_amended ℕ (BQueue.mk 2 []) 1 6).2 rfl⟩

/-- The pairs the capture loop offers are exactly the indexed frames whose
counter is a multiple of the stride. -/
theorem captureLoop_offered (frame_skip : ℕ) (fs : List α) :
    ∀ (c : ℕ) (q : BQueue (ℕ × α)),
      (captureLoop frame_skip q c fs).2 = specSelected frame_skip c fs := by
  induction fs with
  | nil => intro c q; rfl
  | cons f rest ih =>
    intro c q
    simp only [captureLoop, specSelected, List.length_cons, List.range'_succ,
      List.zip_cons_cons, List.filter_cons]
    by_cases h : c % frame_skip = 0
    · simp [h, ih (c + 1), specSelected]
    · simp [h, ih (c + 1), specSelected]

/-- The frames `process_video_file` analyzes are exactly the indexed
frames whose counter is a multiple of the stride. -/
theorem fileProcessSelected_eq (frame_skip : ℕ) (fs : List α) :
    ∀ c : ℕ, fileProcessSelected frame_skip c fs = specSelected frame_skip c fs := by
  induction fs with
  | nil => intro c; rfl
  | cons f rest ih =>
    intro c
    simp only [fileProcessSelected, specSelected, List.length_cons, List.range'_succ,
      List.zip_cons_cons, List.filter_cons]
    by_cases h : c % frame_skip = 0
    · simp [h, ih (c + 1), specSelected]
    · simp [h, ih (c + 1), specSelected]

/-- Counterexample for C8: the sampling stride default is the single
constructor parameter `frame_skip: int = 5`, used unchanged by both file
processing and live capture — so the live-stream default is 5, not the
claimed 10 (10 only appears as an explicit argument in an example
script). -/
theorem c8_counterexample :
    defaultFrameSkip ≠ claimedDefaultFrameSkip VideoMode.live := by decide

/-- C8 (amended): the stride is configurable and defaults to 5 in both
modes (file processing and live streams); for any positive stride, in
both modes exactly the frames whose frame counter is a multiple of the
stride are selected (offered to the frame queue, respectively processed),
and all other frames are skipped. -/
theorem c8_stride_amended (α : Type) (frame_skip : ℕ) (frames : List α)
    (q : BQueue (ℕ × α)) (_hpos : 0 < frame_skip) :
    defaultFrameSkip = 5 ∧
    claimedDefaultFrameSkip VideoMode.file = defaultFrameSkip ∧
    (captureLoop frame_skip q 0 frames).2 = specSelected frame_skip 0 frames ∧
    fileProcessSelected frame_skip 0 frames = specSelected frame_skip 0 frames :=
  ⟨rfl, rfl, captureLoop_offered frame_skip frames 0 q,
    fileProcessSelected_eq frame_skip frames 0⟩

/-- Witness for C8's amended theorem: stride 2 over three frames selects
the frames with counters 0 and 2. -/
theorem c8_stride_amended_witness :
    (0 < 2) ∧
    (defaultFrameSkip = 5 ∧
     claimedDefaultFrameSkip VideoMode.file = defaultFrameSkip ∧
     (captureLoop 2 (BQueue.mk 30 []) 0 [10, 20, 30]).2 = specSelected 2 0 [10, 20, 30] ∧
     fileProcessSelected 2 0 [10, 20, 30] = specSelected 2 0 [10, 20, 30]) :=
  ⟨by decide, c8_stride_amended ℕ 2 [10, 20, 30] (BQueue.mk 30 []) (by decide)⟩

/-! ## Confidence-threshold defaulting in `BaseDetector.detect` -/

/-- `filter_by_confidence(results, threshold)`:
`[r for r in results if r.confidence >= threshold]`. -/
def filter_by_confidence (results : List DetectionResult) (threshold : ℚ) :
    List DetectionResult :=
  results.filter (fun r => decide (threshold ≤ r.confidence))

/-- The defaulting line of `BaseDetector.detect`:
`conf_threshold = conf_threshold or self.config.get('conf_threshold', 0.25)`.
Python's `or` falls through to the config default both when the caller
passed `None` and when it passed the falsy `0.0`; `config_value` is the
optional `conf_threshold` entry of the detector config. -/
def effectiveConfThreshold (conf_threshold : Option ℚ) (config_value : Option ℚ) : ℚ :=
  match conf_threshold with
  | none => config_value.getD (1/4)
  | some t => if t = 0 then config_value.getD (1/4) else t

/-- The confidence-filtering stage of `BaseDetector.detect` on the raw
`_detect_impl` detections (the class filter is skipped: `classes=None`). -/
def detectFiltered (raw : List DetectionResult) (conf_threshold : Option ℚ)
    (config_value : Option ℚ) : List DetectionResult :=
  filter_by_confidence raw (effectiveConfThreshold conf_threshold config_value)

/-- C10: a caller-supplied threshold of `0.0` (or `None`) is replaced by
the configured default (`0.25` when the config has no entry), so raw
detections below the default are excluded even though the caller asked
for a zero threshold; for any positive threshold `t` exactly the raw
detections with confidence `≥ t` are kept. -/
theorem c10_zero_threshold (raw : List DetectionResult) :
    (detectFiltered raw (some 0) none =
      raw.filter (fun r => decide ((1/4 : ℚ) ≤ r.confidence))) ∧
    (detectFiltered raw none none =
      raw.filter (fun r => decide ((1/4 : ℚ) ≤ r.confidence))) ∧
    (∀ r ∈ raw, r.confidence < 1/4 → r ∉ detectFiltered raw (some 0) none) ∧
    (∀ t : ℚ, 0 < t → ∀ config_value : Option ℚ,
      detectFiltered raw (some t) config_value =
        raw.filter (fun r => decide (t ≤ r.confidence))) := by
  have hzero : effectiveConfThreshold (some 0) none = 1/4 := by
    simp [effectiveConfThreshold]
  refine ⟨?_, rfl, ?_, ?_⟩
  · simp [detectFiltered, filter_by_confidence, hzero]
  · intro r _ hlow hmem
    simp [detectFiltered, filter_by_confidence, hzero, List.mem_filter] at hmem
    linarith [hmem.2]
  · intro t ht config_value
    simp [detectFiltered, filter_by_confidence, effectiveConfThreshold, ne_of_gt ht]

/-- A raw detection pair for the C10 witness: one low-confidence
(`0.1`), one high-confidence (`0.9`). -/
def c10Raw : List DetectionResult :=
  [⟨Box.mk 0 0 1 1, 1/10, "drone", 0⟩, ⟨Box.mk 0 0 1 1, 9/10, "drone", 0⟩]

/-- Witness for C10: with a requested zero threshold, the `0.1`-confidence
detection is dropped by the `0.25` default; with the positive threshold
`0.5` exactly the detections at or above `0.5` are kept. -/
theorem c10_zero_threshold_witness :
    ((⟨Box.mk 0 0 1 1, 1/10, "drone", 0⟩ : DetectionResult) ∈ c10Raw ∧
      (1/10 : ℚ) < 1/4 ∧
      (⟨Box.mk 0 0 1 1, 1/10, "drone", 0⟩ : DetectionResult) ∉
        detectFiltered c10Raw (some 0) none) ∧
    ((0 : ℚ) < 1/2 ∧
      detectFiltered c10Raw (some (1/2)) none =
        c10Raw.filter (fun r => decide ((1/2 : ℚ) ≤ r.confidence))) :=
  ⟨⟨List.Mem.head _, by norm_num,
    (c10_zero_threshold c10Raw).2.2.1 ⟨Box.mk 0 0 1 1, 1/10, "drone", 0⟩
      (List.Mem.head _) (by norm_num)⟩,
   ⟨by norm_num,
    (c10_zero_threshold c10Raw).2.2.2 (1/2) (by norm_num) none⟩⟩

end AntiDrone
